import Mathlib

/-!
Verification development for the scikit-bio diversity dispatcher
(`skbio/diversity/_driver.py`) and the tabular MSA container
(`skbio/alignment/_tabular_msa.py`).

The Python source is shallowly embedded: pure dispatch logic is translated
directly; external collaborators (the counts-matrix validator, the
scipy pairwise-distance engine, the symmetric distance-matrix assembly and
the phylogenetic setup routines, none of which live in the two source
files) are either modelled from the specification's contract for them or
kept opaque as environment parameters.
-/

set_option maxHeartbeats 1000000

deriving instance DecidableEq for Except

namespace SkbioDiversity

/-- Sample labels: pandas index entries are either integers (default
positional labels) or caller-provided strings. -/
inductive Label where
  | nat (n : Nat)
  | str (s : String)
deriving DecidableEq

/-- Scalar metric values.  The numeric content of metric results is never
relevant to the dispatcher, so an integer carrier suffices. -/
abbrev Val := Int

/-- Values of metric-specific keyword options (`**kwargs`): numbers,
booleans, or opaque handles (trees, OTU-id sequences, ...). -/
inductive OptVal where
  | num (n : Int)
  | flag (b : Bool)
  | handle (k : Nat)
deriving DecidableEq

/-- Keyword options, as an association list. -/
abbrev Options := List (String × OptVal)

/-- A counts matrix: one row of integer counts per sample. -/
abbrev Counts := List (List Int)

/-- An alpha diversity metric: one sample row and keyword options to a
scalar. -/
abbrev AlphaFn := List Int → Options → Val

/-- A beta diversity metric: two sample rows and keyword options to a
scalar. -/
abbrev BetaFn := List Int → List Int → Options → Val

/-- Errors surfaced by the dispatcher. -/
inductive DivError where
  | validation (msg : String)
  | unknownMetric (s : String)
  | phyloSetup (msg : String)
deriving DecidableEq

/-- The keys of the fixed alpha metric name-to-implementation table, in the
insertion order of `_get_alpha_diversity_metric_map`. -/
def alphaMetricNames : List String :=
  ["ace", "chao1", "chao1_ci", "berger_parker_d", "brillouin_d",
   "dominance", "doubles", "enspie", "esty_ci", "faith_pd",
   "fisher_alpha", "goods_coverage", "heip_e", "kempton_taylor_q",
   "margalef", "mcintosh_d", "mcintosh_e", "menhinick",
   "michaelis_menten_fit", "observed_otus", "osd", "pielou_e",
   "robbins", "shannon", "simpson", "simpson_e", "singles",
   "strong", "gini_index", "lladser_pe", "lladser_ci"]

/-- Modelled from the spec: `_validate_counts_matrix` (in
`skbio/diversity/_util.py`, not among the given source files) confirms
that the counts are non-negative integers, that all sample vectors have
equal length, and that the number of `ids` (when provided) matches the
number of samples; on success the counts pass through unchanged. -/
def _validate_counts_matrix (counts : Counts) (ids : Option (List Label)) :
    Except DivError Counts :=
  if counts.any (fun row => row.any (fun x => decide (x < 0))) then
    .error (.validation "negative counts")
  else if !(counts.all (fun row => row.length == (counts.headD []).length)) then
    .error (.validation "unequal vector lengths")
  else
    match ids with
    | some l =>
        if l.length == counts.length then .ok counts
        else .error (.validation "number of ids must match number of samples")
    | none => .ok counts

/-- External collaborators of `alpha_diversity`: the implementations behind
the fixed name table, and the Faith's PD fast path
(`_get_phylogenetic_kwargs` + `_setup_faith_pd`, returning the
counts-by-node matrix and branch lengths) together with `_faith_pd`. -/
structure AlphaEnv where
  impls : String → AlphaFn
  faithSetup : Counts → Bool → Options → Except DivError (Counts × List Val)
  faithPd : List Int → List Val → Val

/-- The `metric` argument of `alpha_diversity`: a string or a callable. -/
inductive AlphaMetricArg where
  | str (s : String)
  | fn (f : AlphaFn)

/-- A labeled scalar sequence (`pd.Series`): values plus index labels. -/
structure Series where
  values : List Val
  labels : List Label
deriving DecidableEq

/-- The index of `pd.Series(results, index=ids)`: the given ids, or the
default integer labels `0..N-1` when ids is omitted. -/
def seriesIndex (ids : Option (List Label)) (n : Nat) : List Label :=
  match ids with
  | some l => l
  | none => (List.range n).map Label.nat

/-- The fixed alpha metric name-to-implementation table, keyed as in the
source; the implementations themselves are external (`env.impls`). -/
def _get_alpha_diversity_metric_map (env : AlphaEnv) : List (String × AlphaFn) :=
  alphaMetricNames.map (fun n => (n, env.impls n))

/-- `get_alpha_diversity_metrics`: the sorted keys of the alpha metric
table. -/
def get_alpha_diversity_metrics (env : AlphaEnv) : List String :=
  (((_get_alpha_diversity_metric_map env).map Prod.fst)).mergeSort
    (fun a b => decide (a ≤ b))

/-- `get_beta_diversity_metrics`: the sorted list of scikit-bio beta
metric names. -/
def get_beta_diversity_metrics : List String :=
  (["unweighted_unifrac", "weighted_unifrac"]).mergeSort
    (fun a b => decide (a ≤ b))

/-- `alpha_diversity(metric, counts, ids, validate, **kwargs)` from
`_driver.py`: validate when asked, then resolve the metric (dedicated
`"faith_pd"` fast path first, then callables, then the name table, else an
unknown-metric error) and apply it to every sample row. -/
def alpha_diversity (env : AlphaEnv) (metric : AlphaMetricArg) (counts : Counts)
    (ids : Option (List Label)) (validate : Bool) (kwargs : Options) :
    Except DivError Series :=
  let metric_map := _get_alpha_diversity_metric_map env
  match (if validate then _validate_counts_matrix counts ids else .ok counts) with
  | .error e => .error e
  | .ok counts =>
    match metric with
    | .str s =>
        if s = "faith_pd" then
          match env.faithSetup counts validate kwargs with
          | .error e => .error e
          | .ok (counts_by_node, branch_lengths) =>
              .ok ⟨counts_by_node.map (fun c => env.faithPd c branch_lengths),
                   seriesIndex ids counts_by_node.length⟩
        else
          match metric_map.lookup s with
          | some f =>
              .ok ⟨counts.map (fun c => f c kwargs), seriesIndex ids counts.length⟩
          | none => .error (.unknownMetric s)
    | .fn f =>
        .ok ⟨counts.map (fun c => f c kwargs), seriesIndex ids counts.length⟩

/-- External collaborators of `beta_diversity`: the named metrics of the
general-purpose pairwise-distance engine (scipy), and the two UniFrac
setup routines (`_get_phylogenetic_kwargs` + `_setup_multiple_*_unifrac`),
each returning a pairwise metric closure, the counts-by-node matrix, and
the leftover keyword options. -/
structure BetaEnv where
  named : String → Options → List Int → List Int → Val
  unifracU : Counts → Bool → Options → Except DivError (BetaFn × Counts × Options)
  unifracW : Counts → Bool → OptVal → Options →
      Except DivError (BetaFn × Counts × Options)

/-- Modelled from the spec: `_normalize_weighted_unifrac_by_default` (in
`skbio/diversity/beta/_unifrac.py`, not among the given source files) —
weighted UniFrac normalizes by default. -/
def _normalize_weighted_unifrac_by_default : OptVal := .flag true

/-- The `metric` argument of `beta_diversity`: a string or a callable. -/
inductive BetaMetricArg where
  | str (s : String)
  | fn (f : BetaFn)

/-- The metric handed to the pairwise-distance engine: either a name that
the engine resolves itself, or a callable together with the options bound
into it (modelling `functools` partial application). -/
inductive PdistMetric where
  | name (s : String)
  | closure (f : BetaFn) (bound : Options)

/-- All unordered pairs of rows in row-major upper-triangular order
(i < j, i ascending, j ascending within i). -/
def condensedPairs {α : Type} : List α → List (α × α)
  | [] => []
  | r :: rest => rest.map (fun x => (r, x)) ++ condensedPairs rest

/-- Modelled from the spec: `scipy.spatial.distance.pdist` (external),
which feeds every unordered row pair, in the fixed row-major order, to the
metric — a callable closure receives its bound options merged with the
forwarded keyword options; a name is resolved by the engine itself. -/
def pdist (env : BetaEnv) (counts : Counts) (metric : PdistMetric)
    (kwargs : Options) : List Val :=
  (condensedPairs counts).map (fun p =>
    match metric with
    | .name s => env.named s kwargs p.1 p.2
    | .closure f bound => f p.1 p.2 (bound ++ kwargs))

/-- A pairwise distance matrix: the condensed vector of the
`n*(n-1)/2` pairwise values plus the sample ids. -/
structure DistanceMatrix where
  size : Nat
  condensed : List Val
  ids : List Label
deriving DecidableEq

/-- Position of the (i, j) pair (for i < j) in the condensed row-major
upper-triangular vector of an n-sample matrix. -/
def condIdx (n i j : Nat) : Nat :=
  n * i + j - (i * (i + 1)) / 2 - i - 1

/-- Modelled from the spec: the SymmetricMatrix collaborator's contract —
the full square matrix is assembled from the condensed vector with entry
(i, j) read from the condensed position of the unordered pair and every
diagonal entry equal to 0. -/
def squareEntry (n : Nat) (d : List Val) (i j : Nat) : Val :=
  if i < j then d.getD (condIdx n i j) 0
  else if j < i then d.getD (condIdx n j i) 0
  else 0

/-- Entry (i, j) of the assembled square matrix. -/
def DistanceMatrix.entry (m : DistanceMatrix) (i j : Nat) : Val :=
  squareEntry m.size m.condensed i j

/-- The ids of the assembled matrix: the given ids, or the stringified row
positions when ids is omitted. -/
def dmIndex (ids : Option (List Label)) (n : Nat) : List Label :=
  match ids with
  | some l => l
  | none => (List.range n).map (fun k => Label.str (toString k))

/-- Modelled from the spec: the `DistanceMatrix(distances, ids)`
constructor, assembling the condensed pairwise vector into a labeled
symmetric matrix. -/
def mkDistanceMatrix (d : List Val) (n : Nat) (ids : Option (List Label)) :
    DistanceMatrix :=
  ⟨n, d, dmIndex ids n⟩

/-- The metric/counts/kwargs resolution step of `beta_diversity`
(`_driver.py` lines 293-316): the two dedicated UniFrac setups, then
callables (options bound into the closure, forwarded kwargs cleared), then
pass-through of any other name unchanged. -/
def betaResolve (env : BetaEnv) (metric : BetaMetricArg) (counts : Counts)
    (validate : Bool) (kwargs : Options) :
    Except DivError (PdistMetric × Counts × Options) :=
  match metric with
  | .str s =>
      if s = "unweighted_unifrac" then
        match env.unifracU counts validate kwargs with
        | .error e => .error e
        | .ok (f, counts_by_node, kw) => .ok (.closure f [], counts_by_node, kw)
      else if s = "weighted_unifrac" then
        let normalized :=
          (kwargs.lookup "normalized").getD _normalize_weighted_unifrac_by_default
        let kwargs2 := kwargs.filter (fun p => !(p.1 == "normalized"))
        match env.unifracW counts validate normalized kwargs2 with
        | .error e => .error e
        | .ok (f, counts_by_node, kw) => .ok (.closure f [], counts_by_node, kw)
      else
        .ok (.name s, counts, kwargs)
  | .fn f => .ok (.closure f kwargs, counts, [])

/-- `beta_diversity(metric, counts, ids, validate, **kwargs)` from
`_driver.py`: validate when asked, resolve the metric, run the
pairwise-distance engine over all pairs and assemble the labeled
symmetric matrix. -/
def beta_diversity (env : BetaEnv) (metric : BetaMetricArg) (counts : Counts)
    (ids : Option (List Label)) (validate : Bool) (kwargs : Options) :
    Except DivError DistanceMatrix :=
  match (if validate then _validate_counts_matrix counts ids else .ok counts) with
  | .error e => .error e
  | .ok counts =>
    match betaResolve env metric counts validate kwargs with
    | .error e => .error e
    | .ok (m, counts2, kwargs2) =>
        .ok (mkDistanceMatrix (pdist env counts2 m kwargs2) counts2.length ids)

/-- A concrete alpha metric implementation used to instantiate theorems on
concrete inputs: it returns the number of observed entries of a sample. -/
def constAlphaFn : AlphaFn := fun c _ => (c.length : Int)

/-- A concrete environment of external alpha collaborators used to
instantiate theorems on concrete inputs. -/
def alphaEnv0 : AlphaEnv where
  impls := fun _ => constAlphaFn
  faithSetup := fun _ _ _ => .error (.phyloSetup "otu_ids is required")
  faithPd := fun _ _ => 0

/-- A concrete beta metric used to instantiate theorems on concrete
inputs. -/
def constBetaFn : BetaFn := fun u v _ => (u.length : Int) + (v.length : Int)

/-- A concrete environment of external beta collaborators used to
instantiate theorems on concrete inputs. -/
def betaEnv0 : BetaEnv where
  named := fun _ _ u v => (u.length : Int) * (v.length : Int)
  unifracU := fun _ _ _ => .error (.phyloSetup "otu_ids is required")
  unifracW := fun _ _ _ _ => .error (.phyloSetup "otu_ids is required")

end SkbioDiversity

namespace SkbioMSA

open SkbioDiversity (Label)

/-- A scikit-bio sequence class: its identity (`type(sequence)`) and
whether it subclasses `IUPACSequence` (i.e. has an alphabet). -/
structure SeqType where
  tyName : String
  isIUPAC : Bool
deriving DecidableEq

/-- An alphabet-aware (or not) sequence object: its class and its
characters. -/
structure BioSeq where
  ty : SeqType
  chars : List Char
deriving DecidableEq

/-- Errors raised by `TabularMSA` operations. -/
inductive MSAError where
  | typeError (msg : String)
  | valueError (msg : String)
deriving DecidableEq

/-- The tabular MSA: the underlying `pd.Series` of sequences, i.e. an
ordered list of (index label, sequence) pairs. -/
structure TabularMSA where
  seqs : List (Label × BioSeq)
deriving DecidableEq

namespace TabularMSA

/-- `len(msa)`: the number of stored sequences. -/
def size (m : TabularMSA) : Nat := m.seqs.length

/-- `msa.index`: the index labels of the underlying series. -/
def labels (m : TabularMSA) : List Label := m.seqs.map Prod.fst

/-- `msa.dtype`: the type of the stored sequences — the type of the first
sequence when the MSA is non-empty, `None` otherwise. -/
def dtype (m : TabularMSA) : Option SeqType :=
  match m.seqs with
  | [] => none
  | p :: _ => some p.2.ty

/-- `msa.shape.position`: the length of the first sequence when the MSA is
non-empty, 0 otherwise. -/
def shapePosition (m : TabularMSA) : Nat :=
  match m.seqs with
  | [] => 0
  | p :: _ => p.2.chars.length

/-- The default pandas index `0..N-1` that `append` compares against. -/
def defaultIndex (n : Nat) : List Label := (List.range n).map Label.nat

/-- `TabularMSA._assert_valid_sequence`: an empty MSA accepts any
alphabet-aware sequence; a non-empty MSA requires the exact stored dtype
(else `TypeError`) and the stored number of positions (else
`ValueError`). -/
def _assert_valid_sequence (m : TabularMSA) (s : BioSeq) : Except MSAError Unit :=
  if m.size == 0 then
    if s.ty.isIUPAC then .ok ()
    else .error (.typeError "sequence must be a scikit-bio sequence object that has an alphabet")
  else if !(some s.ty == m.dtype) then
    .error (.typeError "sequence must match the type of any other sequences already in the MSA")
  else if !(s.chars.length == m.shapePosition) then
    .error (.valueError "sequence length must match the number of positions in the MSA")
  else .ok ()

/-- The label-resolution step of `TabularMSA.append`: auto-increment when
neither `minter` nor `label` is given and the index is the default one
(else `ValueError`); otherwise use the minter's or the given label. -/
def resolveLabel (m : TabularMSA) (s : BioSeq) (minter : Option (BioSeq → Label))
    (label : Option Label) : Except MSAError Label :=
  match minter, label with
  | none, none =>
      if m.labels == defaultIndex m.size then .ok (Label.nat m.size)
      else .error (.valueError "must provide a minter or label for this sequence")
  | some mi, _ => .ok (mi s)
  | none, some l => .ok l

/-- `TabularMSA.append(sequence, minter, label)`: reject a minter/label
conflict, resolve the index label, validate the sequence, then append it
to the series. -/
def append (m : TabularMSA) (s : BioSeq) (minter : Option (BioSeq → Label))
    (label : Option Label) : Except MSAError TabularMSA :=
  if minter.isSome && label.isSome then
    .error (.valueError "cannot use both minter and label at the same time")
  else
    match resolveLabel m s minter label with
    | .error e => .error e
    | .ok lbl =>
        match _assert_valid_sequence m s with
        | .error e => .error e
        | .ok _ => .ok ⟨m.seqs ++ [(lbl, s)]⟩

/-- `reassign_index(minter=...)` as used by the constructor: relabel every
sequence by applying the minter to it. -/
def reassignWithMinter (m : TabularMSA) (mi : BioSeq → Label) : TabularMSA :=
  ⟨m.seqs.map (fun p => (mi p.2, p.2))⟩

/-- Setting `msa.index`: pandas raises `ValueError` when the new index
length does not match the number of sequences; otherwise the labels are
replaced positionally. -/
def setIndex (m : TabularMSA) (idx : List Label) : Except MSAError TabularMSA :=
  if idx.length == m.size then
    .ok ⟨idx.zip (m.seqs.map Prod.snd)⟩
  else .error (.valueError "length mismatch between index and sequences")

/-- `TabularMSA.__init__(sequences, minter, index)`: start from an empty
series, append every sequence (with auto-incremented default labels),
then apply `minter` or `index` (rejecting both together). -/
def init (sequences : List BioSeq) (minter : Option (BioSeq → Label))
    (index : Option (List Label)) : Except MSAError TabularMSA :=
  match sequences.foldlM (fun acc s => append acc s none none) (⟨[]⟩ : TabularMSA) with
  | .error e => .error e
  | .ok m =>
      if minter.isSome && index.isSome then
        .error (.valueError "cannot use both minter and index at the same time")
      else
        match minter, index with
        | some mi, _ => .ok (reassignWithMinter m mi)
        | none, some idx => setIndex m idx
        | none, none => .ok m

/-- `TabularMSA.from_dict(dictionary)`: construct from the dictionary's
values with the index set to its keys (values and keys iterate in the
same order). -/
def from_dict (d : List (Label × BioSeq)) : Except MSAError TabularMSA :=
  init (d.map Prod.snd) none (some (d.map Prod.fst))

/-- `TabularMSA.to_dict()`: the label-to-sequence mapping when the index
labels are unique, else `ValueError`. -/
def to_dict (m : TabularMSA) : Except MSAError (List (Label × BioSeq)) :=
  if m.labels.Nodup then .ok m.seqs
  else .error (.valueError "cannot convert to dict, index labels are not unique")

end TabularMSA

/-- The MSA well-formedness invariant: every stored sequence has the MSA's
dtype and exactly `shape.position` characters. -/
def alignedInvariant (m : TabularMSA) : Prop :=
  ∀ p ∈ m.seqs, m.dtype = some p.2.ty ∧ p.2.chars.length = m.shapePosition

/-- A concrete alphabet-aware sequence class used to instantiate theorems
on concrete inputs. -/
def dnaType : SeqType := ⟨"DNA", true⟩

/-- A concrete sequence class without an alphabet used to instantiate
theorems on concrete inputs. -/
def plainType : SeqType := ⟨"Sequence", false⟩

end SkbioMSA

namespace SkbioDiversity

/-- The validator passes the counts through unchanged whenever it
succeeds. -/
theorem validate_ok_eq {c : Counts} {i : Option (List Label)} {c' : Counts}
    (h : _validate_counts_matrix c i = .ok c') : c' = c := by
  unfold _validate_counts_matrix at h
  split at h
  · exact absurd h (by simp)
  · split at h
    · exact absurd h (by simp)
    · split at h
      · split at h
        · exact (Except.ok.inj h).symm
        · exact absurd h (by simp)
      · exact (Except.ok.inj h).symm

/-- When the validator reports success, its result is `.ok` of the input
counts. -/
theorem validate_isOk_eq {c : Counts} {i : Option (List Label)}
    (h : (_validate_counts_matrix c i).isOk = true) :
    _validate_counts_matrix c i = .ok c := by
  cases hv : _validate_counts_matrix c i with
  | error e => rw [hv] at h; simp [Except.isOk, Except.toBool] at h
  | ok c' => rw [← validate_ok_eq hv]

/-- Every error of the validator is a `validation` error, never an
unknown-metric error. -/
theorem validate_error_validation {c : Counts} {i : Option (List Label)} {e : DivError}
    (h : _validate_counts_matrix c i = .error e) : ∃ msg, e = .validation msg := by
  unfold _validate_counts_matrix at h
  split at h
  · exact ⟨_, (Except.error.inj h).symm⟩
  · split at h
    · exact ⟨_, (Except.error.inj h).symm⟩
    · split at h
      · split at h
        · exact absurd h (by simp)
        · exact ⟨_, (Except.error.inj h).symm⟩
      · exact absurd h (by simp)

/-- Looking up a key in an association list whose pairs tag each key of a
key list with a function of it. -/
theorem lookup_tagged (g : String → AlphaFn) (s : String) :
    ∀ (l : List String), (l.map (fun n => (n, g n))).lookup s =
      if s ∈ l then some (g s) else none
  | [] => by simp
  | n :: rest => by
      by_cases h : s = n
      · subst h
        simp [List.lookup_cons]
      · simp only [List.map_cons, List.lookup_cons, List.mem_cons]
        have hb : (s == n) = false := by simp [h]
        simp [hb, lookup_tagged g s rest, h]

/-- Looking up a metric name in the fixed alpha metric table. -/
theorem lookup_metric_map (env : AlphaEnv) (s : String) :
    (_get_alpha_diversity_metric_map env).lookup s =
      if s ∈ alphaMetricNames then some (env.impls s) else none :=
  lookup_tagged env.impls s alphaMetricNames

/-- C1 counterexample: with the metric string "bogus" (not 'faith_pd',
not a table key, not callable) but a counts matrix containing a negative
entry, `alpha_diversity` with `validate=True` fails with the validation
error, not with the unknown-metric error — so the claim's "for every
counts input" is too strong. -/
theorem alpha_unknown_metric_cex :
    alpha_diversity alphaEnv0 (.str "bogus") [[-1]] none true [] =
      .error (.validation "negative counts") ∧
    alpha_diversity alphaEnv0 (.str "bogus") [[-1]] none true [] ≠
      .error (.unknownMetric "bogus") := by
  refine ⟨rfl, ?_⟩
  decide

/-- C1 (amended): for every metric argument that is a string other than
'faith_pd', is not a key of the fixed alpha metric table, and is not
callable, `alpha_diversity` fails with the unknown-metric error and
returns no result, for every counts input that is not already rejected by
validation (i.e. whenever `validate` is off or validation succeeds). -/
theorem alpha_unknown_metric (env : AlphaEnv) (s : String) (counts : Counts)
    (ids : Option (List Label)) (validate : Bool) (kwargs : Options)
    (hf : s ≠ "faith_pd") (hm : s ∉ alphaMetricNames)
    (hv : validate = false ∨ (_validate_counts_matrix counts ids).isOk = true) :
    alpha_diversity env (.str s) counts ids validate kwargs =
      .error (.unknownMetric s) := by
  have hlook := lookup_metric_map env s
  rw [if_neg hm] at hlook
  unfold alpha_diversity
  rcases hv with hv | hv
  · subst hv
    simp [hf, hlook]
  · cases validate with
    | false => simp [hf, hlook]
    | true => simp [validate_isOk_eq hv, hf, hlook]

/-- Witness for the amended C1 at a concrete input. -/
theorem alpha_unknown_metric_witness :
    alpha_diversity alphaEnv0 (.str "bogus") [[1, 2]] none true [] =
      .error (.unknownMetric "bogus") :=
  alpha_unknown_metric alphaEnv0 "bogus" [[1, 2]] none true []
    (by decide) (by decide) (Or.inr (by decide))

/-- C3: for every non-phylogenetic resolved metric (a callable, or a
table key other than 'faith_pd'), every options mapping and every
validated counts matrix, `alpha_diversity` returns the metric applied to
each row in input row order with the options forwarded as keyword
parameters, and the labels default to the integers 0..N-1 when ids is
omitted. -/
theorem alpha_applies_rowwise (env : AlphaEnv) (f : AlphaFn) (counts : Counts)
    (ids : Option (List Label)) (validate : Bool) (kwargs : Options)
    (hv : validate = false ∨ (_validate_counts_matrix counts ids).isOk = true) :
    alpha_diversity env (.fn f) counts ids validate kwargs =
      .ok ⟨counts.map (fun c => f c kwargs), seriesIndex ids counts.length⟩ ∧
    (∀ s : String, s ≠ "faith_pd" → s ∈ alphaMetricNames →
      alpha_diversity env (.str s) counts ids validate kwargs =
        .ok ⟨counts.map (fun c => env.impls s c kwargs),
             seriesIndex ids counts.length⟩) ∧
    seriesIndex none counts.length = (List.range counts.length).map Label.nat := by
  have hred : (if validate then _validate_counts_matrix counts ids else .ok counts) =
      .ok counts := by
    rcases hv with hv | hv
    · rw [hv]; rfl
    · cases validate with
      | false => rfl
      | true => simpa using validate_isOk_eq hv
  refine ⟨?_, ?_, rfl⟩
  · unfold alpha_diversity
    rw [hred]
  · intro s hf hm
    have hlook := lookup_metric_map env s
    rw [if_pos hm] at hlook
    unfold alpha_diversity
    rw [hred]
    simp [hf, hlook]

/-- Witness for C3 at a concrete input: two samples, no ids, so the
labels are the integers 0 and 1 and the values follow the row order. -/
theorem alpha_applies_rowwise_witness :
    alpha_diversity alphaEnv0 (.fn constAlphaFn) [[1, 2], [3, 4]] none true [] =
      .ok ⟨[2, 2], [Label.nat 0, Label.nat 1]⟩ :=
  (alpha_applies_rowwise alphaEnv0 constAlphaFn [[1, 2], [3, 4]] none true []
    (Or.inr (by decide))).1

/-- C5: when validation fails and `validate` is on, both entry points
return exactly the validation error — for every metric and every
assignment of the external collaborators, so no metric function is ever
consulted and no partial result can be observed. -/
theorem validation_raised_eagerly (aenv : AlphaEnv) (benv : BetaEnv)
    (am : AlphaMetricArg) (bm : BetaMetricArg) (counts : Counts)
    (ids : Option (List Label)) (akw bkw : Options) (e : DivError)
    (hv : _validate_counts_matrix counts ids = .error e) :
    alpha_diversity aenv am counts ids true akw = .error e ∧
    beta_diversity benv bm counts ids true bkw = .error e := by
  constructor
  · unfold alpha_diversity
    rw [if_pos rfl, hv]
  · unfold beta_diversity
    rw [if_pos rfl, hv]

/-- Witness for C5 at a concrete input with a negative count. -/
theorem validation_raised_eagerly_witness :
    alpha_diversity alphaEnv0 (.fn constAlphaFn) [[-2]] none true [] =
      .error (.validation "negative counts") ∧
    beta_diversity betaEnv0 (.fn constBetaFn) [[-2]] none true [] =
      .error (.validation "negative counts") :=
  validation_raised_eagerly alphaEnv0 betaEnv0 (.fn constAlphaFn) (.fn constBetaFn)
    [[-2]] none [] [] (.validation "negative counts") (by decide)

/-- The resolution step of `beta_diversity` does not depend on the
`validate` flag when the external UniFrac setups do not. -/
theorem betaResolve_validate_eq (env : BetaEnv) (metric : BetaMetricArg)
    (counts : Counts) (kwargs : Options)
    (hU : env.unifracU counts false kwargs = env.unifracU counts true kwargs)
    (hW : ∀ nv kw2, env.unifracW counts false nv kw2 = env.unifracW counts true nv kw2) :
    betaResolve env metric counts false kwargs = betaResolve env metric counts true kwargs := by
  cases metric with
  | fn f => rfl
  | str s =>
    unfold betaResolve
    by_cases h1 : s = "unweighted_unifrac"
    · simp [h1, hU]
    · by_cases h2 : s = "weighted_unifrac"
      · simp [h1, h2, hW]
      · simp [h1, h2]

/-- C6: on well-formed input (validation succeeds, and the external
phylogenetic setups do not themselves depend on the flag, per their
contract), `validate=False` yields results identical to `validate=True`
for both entry points. -/
theorem validate_flag_no_effect (aenv : AlphaEnv) (benv : BetaEnv)
    (am : AlphaMetricArg) (bm : BetaMetricArg) (counts : Counts)
    (ids : Option (List Label)) (akw bkw : Options)
    (hok : (_validate_counts_matrix counts ids).isOk = true)
    (hfaith : aenv.faithSetup counts false akw = aenv.faithSetup counts true akw)
    (hU : benv.unifracU counts false bkw = benv.unifracU counts true bkw)
    (hW : ∀ nv kw2, benv.unifracW counts false nv kw2 = benv.unifracW counts true nv kw2) :
    alpha_diversity aenv am counts ids false akw =
      alpha_diversity aenv am counts ids true akw ∧
    beta_diversity benv bm counts ids false bkw =
      beta_diversity benv bm counts ids true bkw := by
  have heq := validate_isOk_eq hok
  constructor
  · unfold alpha_diversity
    rw [if_pos rfl, if_neg (by simp), heq]
    cases am with
    | fn f => rfl
    | str s =>
      by_cases hf : s = "faith_pd"
      · simp [hf, hfaith]
      · simp [hf]
  · unfold beta_diversity
    rw [if_pos rfl, if_neg (by simp), heq]
    simp only [betaResolve_validate_eq benv bm counts bkw hU hW]

/-- Witness for C6 at a concrete input. -/
theorem validate_flag_no_effect_witness :
    alpha_diversity alphaEnv0 (.fn constAlphaFn) [[1, 2]] none false [] =
      alpha_diversity alphaEnv0 (.fn constAlphaFn) [[1, 2]] none true [] ∧
    beta_diversity betaEnv0 (.fn constBetaFn) [[1, 2]] none false [] =
      beta_diversity betaEnv0 (.fn constBetaFn) [[1, 2]] none true [] :=
  validate_flag_no_effect alphaEnv0 betaEnv0 (.fn constAlphaFn) (.fn constBetaFn)
    [[1, 2]] none [] [] (by decide) rfl rfl (fun _ _ => rfl)

/-- C2: a string metric other than the two UniFrac names resolves to a
pass-through: `beta_diversity` never fails with an unknown-metric error,
and (whenever the counts are not rejected by validation) the name, the
counts and the remaining options are handed unchanged to the external
pairwise-distance engine. -/
theorem beta_passthrough (env : BetaEnv) (s : String) (counts : Counts)
    (ids : Option (List Label)) (validate : Bool) (kwargs : Options)
    (h1 : s ≠ "unweighted_unifrac") (h2 : s ≠ "weighted_unifrac") :
    betaResolve env (.str s) counts validate kwargs = .ok (.name s, counts, kwargs) ∧
    (∀ t, beta_diversity env (.str s) counts ids validate kwargs ≠
      .error (.unknownMetric t)) ∧
    ((validate = false ∨ (_validate_counts_matrix counts ids).isOk = true) →
      beta_diversity env (.str s) counts ids validate kwargs =
        .ok (mkDistanceMatrix (pdist env counts (.name s) kwargs) counts.length ids)) := by
  have hres : ∀ c : Counts, betaResolve env (.str s) c validate kwargs =
      .ok (.name s, c, kwargs) := by
    intro c
    unfold betaResolve
    simp [h1, h2]
  refine ⟨hres counts, ?_, ?_⟩
  · intro t
    unfold beta_diversity
    cases validate with
    | false => simp [hres]
    | true =>
      cases hval : _validate_counts_matrix counts ids with
      | error e =>
        obtain ⟨msg, hmsg⟩ := validate_error_validation hval
        simp [hval, hmsg]
      | ok c =>
        simp [hval, hres]
  · intro hv
    have hred : (if validate then _validate_counts_matrix counts ids else .ok counts) =
        .ok counts := by
      rcases hv with hv | hv
      · rw [hv]; rfl
      · cases validate with
        | false => rfl
        | true => simpa using validate_isOk_eq hv
    unfold beta_diversity
    rw [hred]
    simp [hres]

/-- Witness for C2 at the SciPy metric name "braycurtis". -/
theorem beta_passthrough_witness :
    betaResolve betaEnv0 (.str "braycurtis") [[1, 2], [3, 4]] true [] =
      .ok (.name "braycurtis", [[1, 2], [3, 4]], []) ∧
    (∀ t, beta_diversity betaEnv0 (.str "braycurtis") [[1, 2], [3, 4]] none true [] ≠
      .error (.unknownMetric t)) ∧
    ((true = false ∨ (_validate_counts_matrix [[1, 2], [3, 4]] none).isOk = true) →
      beta_diversity betaEnv0 (.str "braycurtis") [[1, 2], [3, 4]] none true [] =
        .ok (mkDistanceMatrix (pdist betaEnv0 [[1, 2], [3, 4]] (.name "braycurtis") [])
          [[1, 2], [3, 4]].length none)) :=
  beta_passthrough betaEnv0 "braycurtis" [[1, 2], [3, 4]] none true []
    (by decide) (by decide)

/-- The assembled square matrix is symmetric: the collaborator reads the
(i, j) and (j, i) entries from the same condensed position. -/
theorem squareEntry_symm (n : Nat) (d : List Val) (i j : Nat) :
    squareEntry n d i j = squareEntry n d j i := by
  unfold squareEntry
  rcases Nat.lt_trichotomy i j with h | h | h
  · rw [if_pos h, if_neg (Nat.lt_asymm h), if_pos h]
  · subst h
    simp
  · rw [if_neg (Nat.lt_asymm h), if_pos h, if_pos h]

/-- The assembled square matrix has a zero diagonal. -/
theorem squareEntry_diag (n : Nat) (d : List Val) (i : Nat) :
    squareEntry n d i i = 0 := by
  unfold squareEntry
  simp

/-- C4: every matrix returned by `beta_diversity` is symmetric with zero
diagonal, under the symmetric-matrix collaborator's contract of
assembling a condensed vector of the pairwise values. -/
theorem beta_matrix_symmetric (env : BetaEnv) (metric : BetaMetricArg)
    (counts : Counts) (ids : Option (List Label)) (validate : Bool)
    (kwargs : Options) (dm : DistanceMatrix)
    (_h : beta_diversity env metric counts ids validate kwargs = .ok dm) :
    (∀ i j, dm.entry i j = dm.entry j i) ∧ (∀ i, dm.entry i i = 0) :=
  ⟨fun i j => squareEntry_symm dm.size dm.condensed i j,
   fun i => squareEntry_diag dm.size dm.condensed i⟩

/-- Witness for C4 at a concrete two-sample matrix. -/
theorem beta_matrix_symmetric_witness :
    (∀ i j, (mkDistanceMatrix (pdist betaEnv0 [[1, 2], [3, 4]] (.closure constBetaFn []) [])
      2 none).entry i j =
        (mkDistanceMatrix (pdist betaEnv0 [[1, 2], [3, 4]] (.closure constBetaFn []) [])
      2 none).entry j i) ∧
    (∀ i, (mkDistanceMatrix (pdist betaEnv0 [[1, 2], [3, 4]] (.closure constBetaFn []) [])
      2 none).entry i i = 0) :=
  beta_matrix_symmetric betaEnv0 (.fn constBetaFn) [[1, 2], [3, 4]] none true [] _ (by decide)

/-- C8: when `beta_diversity` is called with a callable metric, every
keyword option is bound into the metric closure and the engine is handed
an empty keyword set, so each pair evaluation applies the metric to its
two rows with the original options exactly once. -/
theorem beta_callable_binds_options (env : BetaEnv) (f : BetaFn) (counts : Counts)
    (ids : Option (List Label)) (validate : Bool) (kwargs : Options) :
    betaResolve env (.fn f) counts validate kwargs =
      .ok (.closure f kwargs, counts, []) ∧
    pdist env counts (.closure f kwargs) [] =
      (condensedPairs counts).map (fun p => f p.1 p.2 kwargs) ∧
    beta_diversity env (.fn f) counts ids false kwargs =
      .ok (mkDistanceMatrix ((condensedPairs counts).map (fun p => f p.1 p.2 kwargs))
        counts.length ids) := by
  refine ⟨rfl, ?_, ?_⟩
  · unfold pdist
    simp
  · unfold beta_diversity betaResolve
    unfold pdist
    simp

/-- The keys of the alpha metric table are the fixed name list, for every
assignment of the external implementations. -/
theorem metric_map_keys (env : AlphaEnv) :
    (_get_alpha_diversity_metric_map env).map Prod.fst = alphaMetricNames := by
  simp [_get_alpha_diversity_metric_map, Function.comp_def]

/-- Boolean string comparison is transitive. -/
theorem strle_trans (a b c : String) (hab : decide (a ≤ b) = true)
    (hbc : decide (b ≤ c) = true) : decide (a ≤ c) = true := by
  rw [decide_eq_true_eq] at *
  exact le_trans hab hbc

/-- Boolean string comparison is total. -/
theorem strle_total (a b : String) : (decide (a ≤ b) || decide (b ≤ a)) = true := by
  rcases le_total a b with h | h <;> simp [h]

/-- C7: `get_alpha_diversity_metrics` returns exactly the keys of the
fixed alpha metric table in alphabetical order, `get_beta_diversity_metrics`
returns exactly the two scikit-bio beta metric names in alphabetical
order, and both are independent of any call state (here: of the external
implementation environment; both are pure functions). -/
theorem metric_lists_sorted (env env' : AlphaEnv) :
    (get_alpha_diversity_metrics env).Perm alphaMetricNames ∧
    List.Pairwise (fun a b : String => a ≤ b) (get_alpha_diversity_metrics env) ∧
    get_alpha_diversity_metrics env = get_alpha_diversity_metrics env' ∧
    get_beta_diversity_metrics = ["unweighted_unifrac", "weighted_unifrac"] ∧
    List.Pairwise (fun a b : String => a ≤ b) get_beta_diversity_metrics := by
  have hkeys : ∀ e : AlphaEnv, get_alpha_diversity_metrics e =
      alphaMetricNames.mergeSort (fun a b => decide (a ≤ b)) := by
    intro e
    unfold get_alpha_diversity_metrics
    rw [metric_map_keys]
  have huw : (decide (("unweighted_unifrac" : String) ≤ "weighted_unifrac")) = true := by
    rw [decide_eq_true_eq, String.le_iff_toList_le]
    decide
  have hbeta : get_beta_diversity_metrics = ["unweighted_unifrac", "weighted_unifrac"] := by
    unfold get_beta_diversity_metrics
    exact List.mergeSort_of_sorted
      (List.pairwise_cons.mpr
        ⟨fun b hb => by
          rw [List.mem_singleton] at hb
          subst hb
          exact huw,
         List.pairwise_singleton _ _⟩)
  refine ⟨?_, ?_, ?_, hbeta, ?_⟩
  · rw [hkeys]
    exact List.mergeSort_perm alphaMetricNames _
  · rw [hkeys]
    exact (@List.sorted_mergeSort String (fun a b => decide (a ≤ b))
      strle_trans strle_total alphaMetricNames).imp (fun h => of_decide_eq_true h)
  · rw [hkeys, hkeys]
  · rw [hbeta]
    exact List.pairwise_cons.mpr
      ⟨fun b hb => by
        rw [List.mem_singleton] at hb
        subst hb
        exact of_decide_eq_true huw,
       List.pairwise_singleton _ _⟩

end SkbioDiversity

namespace SkbioMSA

open SkbioDiversity (Label)

/-- A successful `_assert_valid_sequence` means: the MSA was empty and the
sequence is alphabet-aware, or the MSA was non-empty and the sequence has
its dtype and its number of positions. -/
theorem assert_ok {m : TabularMSA} {s : BioSeq}
    (h : TabularMSA._assert_valid_sequence m s = .ok ()) :
    (m.seqs = [] ∧ s.ty.isIUPAC = true) ∨
    (m.seqs ≠ [] ∧ m.dtype = some s.ty ∧ s.chars.length = m.shapePosition) := by
  unfold TabularMSA._assert_valid_sequence at h
  split at h
  · split at h
    · rename_i hA hB
      simp [TabularMSA.size, List.length_eq_zero] at hA
      exact Or.inl ⟨hA, hB⟩
    · exact absurd h (by simp)
  · split at h
    · exact absurd h (by simp)
    · split at h
      · exact absurd h (by simp)
      · rename_i hA hC hD
        simp [TabularMSA.size, List.length_eq_zero] at hA
        simp at hC hD
        exact Or.inr ⟨hA, hC.symm, hD⟩

/-- A successful `append` produced the old series with the new pair at the
end, after a successful validity assertion. -/
theorem append_ok {m m' : TabularMSA} {s : BioSeq}
    {minter : Option (BioSeq → Label)} {label : Option Label}
    (h : TabularMSA.append m s minter label = .ok m') :
    ∃ lbl, m'.seqs = m.seqs ++ [(lbl, s)] ∧
      TabularMSA._assert_valid_sequence m s = .ok () := by
  unfold TabularMSA.append at h
  split at h
  · exact absurd h (by simp)
  · split at h
    · exact absurd h (by simp)
    · rename_i lbl hlbl
      split at h
      · exact absurd h (by simp)
      · rename_i u hassert
        cases u
        exact ⟨lbl, by rw [← Except.ok.inj h], hassert⟩

/-- The dtype is a function of the stored sequence list alone. -/
theorem dtype_eq (m : TabularMSA) :
    m.dtype = (m.seqs.map Prod.snd).head?.map BioSeq.ty := by
  cases hm : m.seqs <;> simp [TabularMSA.dtype, hm]

/-- The number of positions is a function of the stored sequence list
alone. -/
theorem shapePosition_eq (m : TabularMSA) :
    m.shapePosition =
      ((m.seqs.map Prod.snd).head?.map (fun b => b.chars.length)).getD 0 := by
  cases hm : m.seqs <;> simp [TabularMSA.shapePosition, hm]

/-- The invariant only depends on the stored sequences, not on their
labels. -/
theorem inv_of_snd_eq {m₁ m₂ : TabularMSA}
    (h : m₂.seqs.map Prod.snd = m₁.seqs.map Prod.snd) :
    alignedInvariant m₁ → alignedInvariant m₂ := by
  intro h₁ p hp
  have hdt : m₂.dtype = m₁.dtype := by rw [dtype_eq, dtype_eq, h]
  have hsp : m₂.shapePosition = m₁.shapePosition := by
    rw [shapePosition_eq, shapePosition_eq, h]
  have hps : p.2 ∈ m₁.seqs.map Prod.snd := by
    rw [← h]
    exact List.mem_map_of_mem Prod.snd hp
  obtain ⟨r, hr, hr2⟩ := List.mem_map.mp hps
  obtain ⟨hd, hl⟩ := h₁ r hr
  rw [hr2] at hd hl
  exact ⟨hdt.trans hd, by rw [hsp]; exact hl⟩

/-- A successful `append` preserves the invariant. -/
theorem append_inv {m m' : TabularMSA} {s : BioSeq}
    {minter : Option (BioSeq → Label)} {label : Option Label}
    (hm : alignedInvariant m)
    (h : TabularMSA.append m s minter label = .ok m') : alignedInvariant m' := by
  obtain ⟨lbl, hseqs, hassert⟩ := append_ok h
  rcases assert_ok hassert with ⟨hnil, _⟩ | ⟨hne, hdt, hlen⟩
  · intro p hp
    rw [hseqs, hnil] at hp
    simp only [List.nil_append, List.mem_singleton] at hp
    subst hp
    constructor
    · simp [TabularMSA.dtype, hseqs, hnil]
    · simp [TabularMSA.shapePosition, hseqs, hnil]
  · obtain ⟨q, t, hq⟩ := List.exists_cons_of_ne_nil hne
    have hdt' : m'.dtype = m.dtype := by
      simp [TabularMSA.dtype, hseqs, hq]
    have hsp' : m'.shapePosition = m.shapePosition := by
      simp [TabularMSA.shapePosition, hseqs, hq]
    intro p hp
    rw [hseqs, List.mem_append] at hp
    rcases hp with hp | hp
    · obtain ⟨hd, hl⟩ := hm p hp
      exact ⟨hdt'.trans hd, by rw [hsp']; exact hl⟩
    · rw [List.mem_singleton] at hp
      subst hp
      exact ⟨hdt'.trans hdt, by rw [hsp']; exact hlen⟩

/-- Folding `append` over a list of sequences preserves the invariant. -/
theorem foldlM_append_inv :
    ∀ (todo : List BioSeq) (m m' : TabularMSA),
      alignedInvariant m →
      todo.foldlM (fun acc s => TabularMSA.append acc s none none) m = .ok m' →
      alignedInvariant m'
  | [], m, m', hm, h => by
      rw [List.foldlM_nil] at h
      exact (Except.ok.inj h) ▸ hm
  | s :: rest, m, m', hm, h => by
      rw [List.foldlM_cons] at h
      cases happ : TabularMSA.append m s none none with
      | error e =>
          rw [happ] at h
          exact Except.noConfusion (show Except.error e = Except.ok m' from h)
      | ok m1 =>
          rw [happ] at h
          exact foldlM_append_inv rest m1 m' (append_inv hm happ) h

/-- The constructor only returns MSAs satisfying the invariant. -/
theorem init_inv {sequences : List BioSeq} {minter : Option (BioSeq → Label)}
    {index : Option (List Label)} {m : TabularMSA}
    (h : TabularMSA.init sequences minter index = .ok m) : alignedInvariant m := by
  unfold TabularMSA.init at h
  split at h
  · exact absurd h (by simp)
  · rename_i m0 hfold
    have hm0 : alignedInvariant m0 :=
      foldlM_append_inv sequences ⟨[]⟩ m0 (by intro p hp; cases hp) hfold
    split at h
    · exact absurd h (by simp)
    · split at h
      · exact (Except.ok.inj h) ▸
          inv_of_snd_eq (by simp [TabularMSA.reassignWithMinter]) hm0
      · rename_i idx hcond
        unfold TabularMSA.setIndex at h
        split at h
        · rename_i hl
          simp only [TabularMSA.size, beq_iff_eq] at hl
          have hzip : (TabularMSA.mk (idx.zip (m0.seqs.map Prod.snd))).seqs.map Prod.snd
              = m0.seqs.map Prod.snd :=
            List.map_snd_zip idx (m0.seqs.map Prod.snd) (by simp [hl])
          exact (Except.ok.inj h) ▸ inv_of_snd_eq hzip hm0
        · exact absurd h (by simp)
      · exact (Except.ok.inj h) ▸ hm0

/-- `append` never succeeds on a sequence whose type or length does not
match a non-empty MSA. -/
theorem append_rejects {m : TabularMSA} {s : BioSeq}
    (minter : Option (BioSeq → Label)) (label : Option Label)
    (hne : m.seqs ≠ [])
    (hbad : some s.ty ≠ m.dtype ∨ s.chars.length ≠ m.shapePosition) :
    ∃ e, TabularMSA.append m s minter label = .error e := by
  have hA : ¬((m.size == 0) = true) := by
    simp [TabularMSA.size, List.length_eq_zero]
    exact hne
  have hassert : ∃ e', TabularMSA._assert_valid_sequence m s = .error e' := by
    unfold TabularMSA._assert_valid_sequence
    rw [if_neg hA]
    cases hty : (some s.ty == m.dtype) with
    | false =>
        exact ⟨_, by rw [if_pos (by simp [hty])]⟩
    | true =>
        have hty' : some s.ty = m.dtype := by simpa using hty
        have hlen : s.chars.length ≠ m.shapePosition := by
          rcases hbad with hb | hb
          · exact absurd hty' hb
          · exact hb
        exact ⟨_, by rw [if_neg (by simp [hty]), if_pos (by simp [hlen])]⟩
  unfold TabularMSA.append
  by_cases hc : (minter.isSome && label.isSome) = true
  · rw [if_pos hc]
    exact ⟨_, rfl⟩
  · rw [if_neg hc]
    obtain ⟨e', he'⟩ := hassert
    cases hres : TabularMSA.resolveLabel m s minter label with
    | error e2 => exact ⟨e2, rfl⟩
    | ok lbl => exact ⟨e', by simp only [he']⟩

/-- C9: each `TabularMSA` maintains the invariant that all stored
sequences share the MSA's dtype and have exactly `shape.position`
characters: the constructor only builds such MSAs, `append` preserves the
invariant, and `append` rejects (with a TypeError or ValueError) every
sequence whose type or length disagrees with a non-empty MSA. -/
theorem msa_type_length_invariant :
    (∀ (sequences : List BioSeq) (minter : Option (BioSeq → Label))
       (index : Option (List Label)) (m : TabularMSA),
       TabularMSA.init sequences minter index = .ok m → alignedInvariant m) ∧
    (∀ (m : TabularMSA) (s : BioSeq) (minter : Option (BioSeq → Label))
       (label : Option Label) (m' : TabularMSA),
       alignedInvariant m → TabularMSA.append m s minter label = .ok m' →
       alignedInvariant m') ∧
    (∀ (m : TabularMSA) (s : BioSeq) (minter : Option (BioSeq → Label))
       (label : Option Label),
       m.seqs ≠ [] →
       (some s.ty ≠ m.dtype ∨ s.chars.length ≠ m.shapePosition) →
       ∃ e, TabularMSA.append m s minter label = .error e) :=
  ⟨fun _ _ _ _ h => init_inv h,
   fun _ _ _ _ _ hm h => append_inv hm h,
   fun _ _ minter label hne hbad => append_rejects minter label hne hbad⟩

/-- Witness for C9: a concrete two-sequence DNA alignment built by the
constructor satisfies the invariant. -/
theorem msa_type_length_invariant_witness :
    alignedInvariant
      ⟨[(Label.nat 0, ⟨dnaType, ['A', 'C']⟩), (Label.nat 1, ⟨dnaType, ['G', 'T']⟩)]⟩ :=
  msa_type_length_invariant.1
    [⟨dnaType, ['A', 'C']⟩, ⟨dnaType, ['G', 'T']⟩] none none
    ⟨[(Label.nat 0, ⟨dnaType, ['A', 'C']⟩), (Label.nat 1, ⟨dnaType, ['G', 'T']⟩)]⟩
    (by decide)

/-- Folding `append` with default labels over same-type, same-length,
alphabet-aware sequences succeeds, keeps the index at its default, and
appends exactly the given sequences. -/
theorem foldlM_append_ok (t : SeqType) (L : Nat) (ht : t.isIUPAC = true) :
    ∀ (todo : List BioSeq) (m : TabularMSA),
      (∀ b ∈ todo, b.ty = t ∧ b.chars.length = L) →
      m.labels = TabularMSA.defaultIndex m.size →
      (∀ p ∈ m.seqs, p.2.ty = t ∧ p.2.chars.length = L) →
      ∃ m', todo.foldlM (fun acc s => TabularMSA.append acc s none none) m = .ok m' ∧
        m'.seqs.map Prod.snd = m.seqs.map Prod.snd ++ todo ∧
        m'.labels = TabularMSA.defaultIndex m'.size
  | [], m, _, hlab, _ => ⟨m, by rw [List.foldlM_nil]; rfl, by simp, hlab⟩
  | b :: rest, m, htodo, hlab, hall => by
      have hb := htodo b (List.mem_cons_self b rest)
      have hassert : TabularMSA._assert_valid_sequence m b = .ok () := by
        unfold TabularMSA._assert_valid_sequence
        cases hm : m.seqs with
        | nil =>
            rw [if_pos (by simp [TabularMSA.size, hm]), if_pos (by rw [hb.1]; exact ht)]
        | cons q tl =>
            have hq := hall q (by rw [hm]; exact List.mem_cons_self q tl)
            have hd : m.dtype = some q.2.ty := by simp [TabularMSA.dtype, hm]
            have hs : m.shapePosition = q.2.chars.length := by
              simp [TabularMSA.shapePosition, hm]
            rw [if_neg (by simp [TabularMSA.size, hm]),
                if_neg (by simp [hd, hb.1, hq.1]),
                if_neg (by simp [hs, hb.2, hq.2])]
      have happ : TabularMSA.append m b none none =
          .ok ⟨m.seqs ++ [(Label.nat m.size, b)]⟩ := by
        unfold TabularMSA.append TabularMSA.resolveLabel
        simp [hlab, hassert]
      have hlab1 : (TabularMSA.mk (m.seqs ++ [(Label.nat m.size, b)])).labels =
          TabularMSA.defaultIndex
            (TabularMSA.mk (m.seqs ++ [(Label.nat m.size, b)])).size := by
        show (m.seqs ++ [(Label.nat m.size, b)]).map Prod.fst =
          TabularMSA.defaultIndex (m.seqs ++ [(Label.nat m.size, b)]).length
        rw [List.map_append]
        have : m.seqs.map Prod.fst = TabularMSA.defaultIndex m.size := hlab
        rw [this]
        simp [TabularMSA.defaultIndex, TabularMSA.size, List.range_succ]
      have hall1 : ∀ p ∈ (TabularMSA.mk (m.seqs ++ [(Label.nat m.size, b)])).seqs,
          p.2.ty = t ∧ p.2.chars.length = L := by
        intro p hp
        rw [show (TabularMSA.mk (m.seqs ++ [(Label.nat m.size, b)])).seqs =
          m.seqs ++ [(Label.nat m.size, b)] from rfl, List.mem_append] at hp
        rcases hp with hp | hp
        · exact hall p hp
        · rw [List.mem_singleton] at hp
          subst hp
          exact hb
      obtain ⟨m', hfold, hsnd, hlab'⟩ :=
        foldlM_append_ok t L ht rest ⟨m.seqs ++ [(Label.nat m.size, b)]⟩
          (fun x hx => htodo x (List.mem_cons_of_mem b hx)) hlab1 hall1
      refine ⟨m', ?_, ?_, hlab'⟩
      · rw [List.foldlM_cons, happ]
        exact hfold
      · rw [hsnd]
        show (m.seqs ++ [(Label.nat m.size, b)]).map Prod.snd ++ rest =
          m.seqs.map Prod.snd ++ (b :: rest)
        rw [List.map_append]
        simp

/-- `from_dict` succeeds on a dictionary of same-type, same-length,
alphabet-aware sequences and reproduces exactly the dictionary's pairs. -/
theorem from_dict_ok (d : List (Label × BioSeq)) (t : SeqType) (L : Nat)
    (ht : t.isIUPAC = true)
    (hall : ∀ p ∈ d, p.2.ty = t ∧ p.2.chars.length = L) :
    TabularMSA.from_dict d = .ok ⟨d⟩ := by
  unfold TabularMSA.from_dict TabularMSA.init
  obtain ⟨m', hfold, hsnd, hlab⟩ :=
    foldlM_append_ok t L ht (d.map Prod.snd) ⟨[]⟩
      (by
        intro b hb
        obtain ⟨p, hp, rfl⟩ := List.mem_map.mp hb
        exact hall p hp)
      rfl
      (by intro p hp; cases hp)
  rw [hfold]
  show TabularMSA.setIndex m' (d.map Prod.fst) = .ok ⟨d⟩
  unfold TabularMSA.setIndex
  have hsnd' : m'.seqs.map Prod.snd = d.map Prod.snd := by simpa using hsnd
  have hlen : m'.size = d.length := by
    have hx := congrArg List.length hsnd'
    simp only [List.length_map] at hx
    simpa [TabularMSA.size] using hx
  rw [if_pos (by simp [hlen])]
  rw [hsnd']
  have hzip : (d.map Prod.fst).zip (d.map Prod.snd) = d := by
    have hz := List.zip_unzip d
    rw [List.unzip_eq_map] at hz
    exact hz
  rw [hzip]

/-- C10: `from_dict` followed by `to_dict` reproduces any dictionary of
distinct labels mapping to equal-length alphabet-aware sequences of one
type, and `to_dict` fails with a ValueError exactly when the MSA's index
labels are not unique. -/
theorem msa_dict_roundtrip :
    (∀ (d : List (Label × BioSeq)) (t : SeqType) (L : Nat),
      t.isIUPAC = true →
      (∀ p ∈ d, p.2.ty = t ∧ p.2.chars.length = L) →
      (d.map Prod.fst).Nodup →
      TabularMSA.from_dict d = .ok ⟨d⟩ ∧ TabularMSA.to_dict ⟨d⟩ = .ok d) ∧
    (∀ m : TabularMSA,
      TabularMSA.to_dict m =
        .error (.valueError "cannot convert to dict, index labels are not unique") ↔
      ¬ m.labels.Nodup) := by
  constructor
  · intro d t L ht hall hkeys
    refine ⟨from_dict_ok d t L ht hall, ?_⟩
    unfold TabularMSA.to_dict
    rw [if_pos (by exact hkeys)]
  · intro m
    unfold TabularMSA.to_dict
    by_cases hnd : m.labels.Nodup
    · rw [if_pos hnd]
      simp [hnd]
    · rw [if_neg hnd]
      simp [hnd]

/-- Witness for C10 at a concrete two-entry dictionary of DNA
sequences. -/
theorem msa_dict_roundtrip_witness :
    TabularMSA.from_dict
      [(Label.str "a", ⟨dnaType, ['A']⟩), (Label.str "b", ⟨dnaType, ['C']⟩)] =
      .ok ⟨[(Label.str "a", ⟨dnaType, ['A']⟩), (Label.str "b", ⟨dnaType, ['C']⟩)]⟩ ∧
    TabularMSA.to_dict
      ⟨[(Label.str "a", ⟨dnaType, ['A']⟩), (Label.str "b", ⟨dnaType, ['C']⟩)]⟩ =
      .ok [(Label.str "a", ⟨dnaType, ['A']⟩), (Label.str "b", ⟨dnaType, ['C']⟩)] :=
  msa_dict_roundtrip.1
    [(Label.str "a", ⟨dnaType, ['A']⟩), (Label.str "b", ⟨dnaType, ['C']⟩)]
    dnaType 1 (by decide) (by decide) (by decide)

end SkbioMSA
